import Mathlib

/-!
Verification of the tgify-i18n core (resource tree store, template compiler
wrapper, locale resolution context, pluralization engine) against its design
document.

Shallow embedding conventions:
* JS strings are Lean String (a list of chars); only the ASCII fragment of
  toLowerCase and of the trim whitespace class is modelled, which covers
  every locale tag and key the system manipulates.
* JS objects are association lists with unique keys in insertion order;
  properties inherited from Object.prototype are not modelled.
* JS numbers that take part in arithmetic (plural counts, progress ratios)
  are modelled as Int respectively Rat; the JS remainder operator, which
  truncates toward zero, is Int.tmod.
* The Node vm execution of a compiled template script is external to the
  repository (a host primitive); it is abstracted by a parameter
  vmRun : String -> Data -> Except SandboxError String giving the outcome
  of running the script built from a template source on a data context.
  A timeout of the 500 ms execution budget is one of the SandboxError
  outcomes.
* Template data values are modelled as strings. The loop in I18nContext.t
  that rebinds function-valued data entries to the context is the identity
  on such data and is therefore not represented.
* Methods that mutate their object are state transformers; a JS method that
  throws before its first mutation is modelled as returning the unchanged
  state paired with the error.
-/

namespace TgifyI18n

/-! ## JS string primitives (ASCII model) -/

/-- ASCII fragment of the JS String.prototype.toLowerCase on one char. -/
def jsLowerChar (c : Char) : Char :=
  if 65 ≤ c.toNat ∧ c.toNat ≤ 90 then Char.ofNat (c.toNat + 32) else c

/-- One step of the JS replace of underscores (codepoint 95) by hyphens. -/
def jsUnderscoreChar (c : Char) : Char :=
  if c.toNat = 95 then '-' else c

/-- ASCII fragment of the whitespace class trimmed by JS String.prototype.trim:
space, tab, newline, carriage return, vertical tab, form feed. -/
def jsWhitespaceChar (c : Char) : Bool :=
  c.toNat = 32 || c.toNat = 9 || c.toNat = 10 || c.toNat = 13 || c.toNat = 11 || c.toNat = 12

def trimChars (l : List Char) : List Char :=
  ((l.dropWhile jsWhitespaceChar).reverse.dropWhile jsWhitespaceChar).reverse

def jsTrim (s : String) : String := String.mk (trimChars s.data)

def jsToLower (s : String) : String := String.mk (s.data.map jsLowerChar)

def jsUnderscoreToHyphen (s : String) : String := String.mk (s.data.map jsUnderscoreChar)

/-- JS s.split(sep)[0] for a one-char separator: the chars before the first
separator (the whole string when the separator does not occur). -/
def baseOf (s : String) : String := String.mk (s.data.takeWhile (fun c => c ≠ '-'))

/-- JS String.prototype.split on a one-char separator (no regex, no limit):
"a.b" gives ["a","b"], "" gives [""], adjacent separators give "" pieces. -/
def splitOnChar (sep : Char) : List Char → List (List Char)
  | [] => [[]]
  | c :: rest =>
    let r := splitOnChar sep rest
    if c = sep then [] :: r
    else
      match r with
      | h :: tl => (c :: h) :: tl
      | [] => [[c]]

def jsSplitDot (s : String) : List String := (splitOnChar '.' s.data).map String.mk

/-! ## Locale tag normalization (the two source copies) -/

/-- normalizeLang from src/src/pluralize.ts: code.trim().toLowerCase().replace(underscore, hyphen). -/
def normalizeLang (code : String) : String :=
  jsUnderscoreToHyphen (jsToLower (jsTrim code))

/-- normalizeLocale from src/unnamed/part_001: the full normalized tag and its
base (substring before the first hyphen). -/
def normalizeLocale (code : String) : String × String :=
  let full := jsUnderscoreToHyphen (jsToLower (jsTrim code))
  (full, baseOf full)

/-! ## Association lists as JS objects (unique keys, insertion order) -/

/-- Own-property read: value at the first occurrence of the key. -/
def lookupKey : List (String × α) → String → Option α
  | [], _ => none
  | (k2, v) :: rest, k => if k2 = k then some v else lookupKey rest k

/-- JS property write obj[k] = v: overwrite in place, else append. -/
def setKey : List (String × α) → String → α → List (String × α)
  | [], k, v => [(k, v)]
  | (k2, v2) :: rest, k, v => if k2 = k then (k, v) :: rest else (k2, v2) :: setKey rest k v

/-- JS delete obj[k] / Map.delete. -/
def eraseKey (l : List (String × α)) (k : String) : List (String × α) :=
  l.filter (fun p => p.1 ≠ k)

/-- JS object spread of b over a: entries of b override entries of a. -/
def jsSpread (a b : List (String × α)) : List (String × α) :=
  b.foldl (fun out kv => setKey out kv.1 kv.2) a

/-! ## Errors and renderers -/

/-- Outcome description of a failure inside the Node vm sandbox (what
err.toString() yields for the thrown value, including the script timeout
of the execution budget). -/
structure SandboxError where
  descr : String
deriving DecidableEq

/-- The single error kind re-signaled by a compiled renderer
(spec name: TemplateExecutionError; in code a plain Error built from
err.toString()). -/
structure TemplateExecutionError where
  message : String
deriving DecidableEq

/-- Template data context, string-valued entries (see header). -/
abbrev Data := List (String × String)

/-- A compiled renderer: data context to string, or a template execution failure. -/
abbrev TmplFn := Data → Except TemplateExecutionError String

inductive I18nError where
  | keyNotFound (languageCode resourceKey : String)
  | invalidResourceShape (language : String)
  | templateExec (e : TemplateExecutionError)
deriving DecidableEq

/-- The message strings carried by the errors thrown in the source. -/
def errMessage : I18nError → String
  | I18nError.keyNotFound l k => "@tgify/i18n: \x27" ++ l ++ "." ++ k ++ "\x27 not found"
  | I18nError.invalidResourceShape l => "Locale \x27" ++ l ++ "\x27 must contain an object at root"
  | I18nError.templateExec e => e.message

/-! ## Resource values -/

/-- Non-string leaf values a parsed resource document can contain. -/
inductive RawLeaf where
  | num (q : Rat)
  | boolean (b : Bool)
  | nullv
deriving DecidableEq

/-- ResourceValue after compilation: a renderer, a tree, an array, or a raw
non-string leaf (compileTemplates leaves those untouched). -/
inductive RV where
  | fn (f : TmplFn)
  | tree (entries : List (String × RV))
  | arr (elems : List RV)
  | raw (leaf : RawLeaf)

abbrev ResourceTree := List (String × RV)

abbrev Repository := List (String × ResourceTree)

/-- isPlainObject from src/unnamed/part_001: an object that is not null and
not an array. -/
def isPlainObjectRV : RV → Bool
  | RV.tree _ => true
  | _ => false

/-! ## Template compiler (src/src/utils/compile.ts) -/

/-- compile from src/src/utils/compile.ts: builds a script from the escaped
template (vm.Script of the backtick-wrapped source, abstracted by vmRun),
and returns a renderer that runs it on a fresh copy of defaultContext
overlaid with the call context, re-throwing any failure as a single plain
Error carrying err.toString(). -/
def compile (vmRun : String → Data → Except SandboxError String)
    (template : String) (defaultContext : Data) : TmplFn :=
  fun context =>
    match vmRun template (jsSpread defaultContext context) with
    | Except.ok s => Except.ok s
    | Except.error err => Except.error { message := err.descr }

/-! ## Resource tree store (src/unnamed/part_001) -/

/-- Uncompiled resource data as parsed from JSON or YAML. -/
inductive Raw where
  | str (s : String)
  | obj (fields : List (String × Raw))
  | arr (elems : List Raw)
  | num (q : Rat)
  | boolean (b : Bool)
  | nullv

def Raw.isObj : Raw → Bool
  | Raw.obj _ => true
  | _ => false

/-- value.includes of the two-char template marker (dollar, open brace). -/
def hasTemplateMarker : List Char → Bool
  | [] => false
  | '$' :: '\x7b' :: _ => true
  | _ :: rest => hasTemplateMarker rest

mutual

/-- compileTemplates from src/unnamed/part_001: arrays element-wise, objects
key-wise, strings to renderers (through the sandbox compiler when they
contain the template marker, a constant renderer otherwise), any other
value unchanged. The element-wise and key-wise maps are the two mutual
companions below. -/
def compileTemplates (vmRun : String → Data → Except SandboxError String) : Raw → RV
  | Raw.nullv => RV.raw RawLeaf.nullv
  | Raw.arr elems => RV.arr (compileTemplatesList vmRun elems)
  | Raw.obj fields => RV.tree (compileTemplatesFields vmRun fields)
  | Raw.str s =>
    if hasTemplateMarker s.data then RV.fn (compile vmRun s [])
    else RV.fn (fun _ => Except.ok s)
  | Raw.num q => RV.raw (RawLeaf.num q)
  | Raw.boolean b => RV.raw (RawLeaf.boolean b)

def compileTemplatesList (vmRun : String → Data → Except SandboxError String) :
    List Raw → List RV
  | [] => []
  | x :: xs => compileTemplates vmRun x :: compileTemplatesList vmRun xs

def compileTemplatesFields (vmRun : String → Data → Except SandboxError String) :
    List (String × Raw) → List (String × RV)
  | [] => []
  | (k, v) :: xs => (k, compileTemplates vmRun v) :: compileTemplatesFields vmRun xs

end

/-- deepMerge from src/unnamed/part_001: start from a copy of a, then for
each key of b in order, if the current value at that key and the incoming
value are both plain objects merge them recursively, otherwise the incoming
value replaces the current one. -/
def deepMerge : List (String × RV) → List (String × RV) → List (String × RV)
  | a, [] => a
  | a, (k, bv) :: rest =>
    match lookupKey a k, bv with
    | some (RV.tree ta), RV.tree tb => deepMerge (setKey a k (RV.tree (deepMerge ta tb))) rest
    | _, _ => deepMerge (setKey a k bv) rest
termination_by _ b => sizeOf b
decreasing_by
  all_goals simp_wf
  all_goals omega

/-- getTemplateKeysRecursive from src/unnamed/part_001: depth-first dotted
paths of every non-tree leaf. -/
def getTemplateKeysRecursive : ResourceTree → String → List String
  | [], _ => []
  | (key, v) :: rest, pre =>
    let subKey := if pre = "" then key else pre ++ "." ++ key
    (match v with
     | RV.tree sub => getTemplateKeysRecursive sub subKey
     | _ => [subKey]) ++ getTemplateKeysRecursive rest pre
termination_by l _ => sizeOf l
decreasing_by
  all_goals simp_wf
  all_goals omega

/-- Mutable state of an I18n instance: the repository and the key-set cache. -/
structure I18nStore where
  repository : Repository
  keysCache : List (String × List String)

/-- invalidate from src/unnamed/part_001: clear the whole cache, or delete
the entry of one lower-cased language tag. -/
def invalidate (cache : List (String × List String)) (language : Option String) :
    List (String × List String) :=
  match language with
  | none => []
  | some l => eraseKey cache (jsToLower l)

/-- loadLocale from src/unnamed/part_001. The root shape check happens before
any mutation, so the error case carries the unchanged store. -/
def loadLocale (vmRun : String → Data → Except SandboxError String)
    (st : I18nStore) (languageCode : String) (i18Data : Raw) :
    I18nStore × Option I18nError :=
  let language := (normalizeLocale languageCode).1
  let compiled := compileTemplates vmRun i18Data
  match compiled with
  | RV.tree entries =>
    ({ repository := setKey st.repository language
         (deepMerge ((lookupKey st.repository language).getD []) entries),
       keysCache := invalidate st.keysCache (some language) }, none)
  | _ => (st, some (I18nError.invalidResourceShape language))

/-- resourceKeys from src/unnamed/part_001, with the keysCache memoization
modelled as transparent: a cache entry is only ever the value computed
here, so the cached and the recomputed result agree. -/
def resourceKeys (st : I18nStore) (languageCode : String) : List String :=
  getTemplateKeysRecursive ((lookupKey st.repository (normalizeLocale languageCode).1).getD []) ""

/-- missingKeys from src/unnamed/part_001 (the Set is membership only). -/
def missingKeys (st : I18nStore) (languageOfInterest referenceLanguage : String) : List String :=
  let interest := resourceKeys st languageOfInterest
  (resourceKeys st referenceLanguage).filter (fun k => ¬ interest.contains k)

/-- overspecifiedKeys from src/unnamed/part_001. -/
def overspecifiedKeys (st : I18nStore) (languageOfInterest referenceLanguage : String) : List String :=
  missingKeys st referenceLanguage languageOfInterest

/-- translationProgress from src/unnamed/part_001, exact-rational model of
the JS float division. -/
def translationProgress (st : I18nStore) (languageOfInterest referenceLanguage : String) : Rat :=
  let referenceCount := (resourceKeys st referenceLanguage).length
  if referenceCount = 0 then 1
  else ((referenceCount : Rat) - ((missingKeys st languageOfInterest referenceLanguage).length : Rat))
       / (referenceCount : Rat)

/-! ## Configuration composition (I18n constructor, src/unnamed/part_001) -/

/-- The caller-supplied options object (fields absent when not passed).
directory, useSession, sessionName and extensions drive the file-reading
and middleware collaborators and are outside the modelled core. -/
structure I18nOptions where
  defaultLanguage : Option String
  defaultLanguageOnMissing : Option Bool
  allowMissing : Option Bool
  templateData : Option Data

/-- The effective configuration a context reads. -/
structure I18nConfig where
  defaultLanguage : String
  defaultLanguageOnMissing : Bool
  allowMissing : Bool
  templateData : Data

/-- The config spread in the I18n constructor: literal defaults
(defaultLanguage "en", allowMissing true; defaultLanguageOnMissing has no
default and stays absent/false) overridden by the caller options. The
default templateData binds the pluralize helper, a function value outside
the string-valued data model, modelled as the empty data object; no claim
reads template data values. -/
def mkI18nConfig (config : I18nOptions) : I18nConfig :=
  { defaultLanguage := config.defaultLanguage.getD "en"
    defaultLanguageOnMissing := config.defaultLanguageOnMissing.getD false
    allowMissing := config.allowMissing.getD true
    templateData := config.templateData.getD [] }

/-! ## Locale resolution context (src/src/context.ts) -/

structure I18nContext where
  repository : Repository
  config : I18nConfig
  languageCode : String
  shortLanguageCode : String
  templateData : Data

/-- The mutating branch of I18nContext.locale (a falsy argument only reads
the current locale): lower-case the tag, take the part before the first
hyphen, and fall back to the configured default language when neither is a
repository key. Note the source applies toLowerCase only here, not the
full normalizeLocale. -/
def localeSet (c : I18nContext) (languageCode : String) : I18nContext :=
  if languageCode = "" then c
  else
    let code := jsToLower languageCode
    let shortCode := baseOf code
    if (lookupKey c.repository code).isNone ∧ (lookupKey c.repository shortCode).isNone then
      { c with languageCode := c.config.defaultLanguage,
               shortLanguageCode := baseOf c.config.defaultLanguage }
    else
      { c with languageCode := code, shortLanguageCode := shortCode }

/-- The I18nContext constructor: resolve languageCode (or the configured
default when absent or falsy), then overlay the per-context template data
on the configured one. -/
def mkI18nContext (repository : Repository) (config : I18nConfig)
    (languageCode : Option String) (templateData : Data) : I18nContext :=
  let requested :=
    match languageCode with
    | some s => if s = "" then config.defaultLanguage else s
    | none => config.defaultLanguage
  let c1 := localeSet
    { repository := repository, config := config,
      languageCode := "", shortLanguageCode := "", templateData := [] }
    requested
  { c1 with templateData := jsSpread config.templateData templateData }

/-- One step of the reduce in getTemplate: acc must be truthy and of object
type (tree or array; functions and raw leaves give undefined), then the
property read. Array reads cover the canonical numeric indices and length. -/
def jsGetProp : RV → String → Option RV
  | RV.tree entries, key => lookupKey entries key
  | RV.arr elems, key =>
    if key = "length" then some (RV.raw (RawLeaf.num (elems.length : Rat)))
    else
      match key.toNat? with
      | some i => if toString i = key then elems[i]? else none
      | none => none
  | _, _ => none

/-- getTemplate from src/src/context.ts. -/
def getTemplate (c : I18nContext) (languageCode : String) (resourceKey : String) : Option RV :=
  match lookupKey c.repository languageCode with
  | none => none
  | some root =>
    if resourceKey = "" then some (RV.tree root)
    else
      (jsSplitDot resourceKey).foldl
        (fun acc key =>
          match acc with
          | some v => jsGetProp v key
          | none => none)
        (some (RV.tree root))

/-- JS nullish test on a lookup result: undefined or null. -/
def isNullishO : Option RV → Bool
  | none => true
  | some (RV.raw RawLeaf.nullv) => true
  | some _ => false

/-- JS truthiness of a lookup result: undefined, null, false and 0 are
falsy; renderers, trees, arrays, true and nonzero numbers are truthy. -/
def isTruthyO : Option RV → Bool
  | none => false
  | some (RV.raw RawLeaf.nullv) => false
  | some (RV.raw (RawLeaf.num q)) => q ≠ 0
  | some (RV.raw (RawLeaf.boolean b)) => b
  | some _ => true

/-- Step 1 of I18nContext.t: full-locale lookup, base-locale lookup joined
by the nullish-coalescing operator. -/
def tLookup1 (c : I18nContext) (resourceKey : String) : Option RV :=
  if isNullishO (getTemplate c c.languageCode resourceKey)
  then getTemplate c c.shortLanguageCode resourceKey
  else getTemplate c c.languageCode resourceKey

/-- Step 2 of I18nContext.t: when the result so far is falsy and
defaultLanguageOnMissing is set, replace it by the default-locale lookup. -/
def tLookup2 (c : I18nContext) (resourceKey : String) : Option RV :=
  if ¬ isTruthyO (tLookup1 c resourceKey) ∧ c.config.defaultLanguageOnMissing = true
  then getTemplate c c.config.defaultLanguage resourceKey
  else tLookup1 c resourceKey

/-- Step 3 of I18nContext.t: when the result is still falsy and allowMissing
is set, synthesize the raw-key renderer. -/
def tLookup3 (c : I18nContext) (resourceKey : String) : Option RV :=
  if ¬ isTruthyO (tLookup2 c resourceKey) ∧ c.config.allowMissing = true
  then some (RV.fn (fun _ => Except.ok resourceKey))
  else tLookup2 c resourceKey

/-- I18nContext.t from src/src/context.ts: the three lookup steps, the
typeof function guard (anything else throws the not-found error naming the
effective locale and the key), then the renderer applied to the context
template data overlaid with the per-call data. -/
def t (c : I18nContext) (resourceKey : String) (templateData : Data) :
    Except I18nError String :=
  match tLookup3 c resourceKey with
  | some (RV.fn f) =>
    (f (jsSpread c.templateData templateData)).mapError I18nError.templateExec
  | _ => Except.error (I18nError.keyNotFound c.languageCode resourceKey)

/-! ## Pluralization engine (src/src/pluralize.ts) -/

/-- JS remainder (truncated toward zero). -/
def jsMod (a b : Int) : Int := a.tmod b

inductive PluralRuleKey where
  | english | french | russian | czech | polish | icelandic | chinese | arabic
deriving DecidableEq

/-- The plural rule families, each a function from count to zero-based form
index. -/
def pluralRules : PluralRuleKey → Int → Nat
  | PluralRuleKey.english => fun n => if n ≠ 1 then 1 else 0
  | PluralRuleKey.french => fun n => if 1 < n then 1 else 0
  | PluralRuleKey.russian => fun n =>
    if jsMod n 10 = 1 ∧ jsMod n 100 ≠ 11 then 0
    else if 2 ≤ jsMod n 10 ∧ jsMod n 10 ≤ 4 ∧ (jsMod n 100 < 10 ∨ 20 ≤ jsMod n 100) then 1
    else 2
  | PluralRuleKey.czech => fun n =>
    if n = 1 then 0 else if 2 ≤ n ∧ n ≤ 4 then 1 else 2
  | PluralRuleKey.polish => fun n =>
    if n = 1 then 0
    else if 2 ≤ jsMod n 10 ∧ jsMod n 10 ≤ 4 ∧ (jsMod n 100 < 10 ∨ 20 ≤ jsMod n 100) then 1
    else 2
  | PluralRuleKey.icelandic => fun n =>
    if jsMod n 10 ≠ 1 ∨ jsMod n 100 = 11 then 1 else 0
  | PluralRuleKey.chinese => fun _ => 0
  | PluralRuleKey.arabic => fun n =>
    if 0 ≤ n ∧ n < 3 then n.toNat
    else if jsMod n 100 ≤ 10 then 3
    else if 11 ≤ n ∧ jsMod n 100 ≤ 99 then 4
    else 5

/-- The language-to-rule-family table of the source, in its insertion order. -/
def langMapping : List (PluralRuleKey × List String) :=
  [(PluralRuleKey.english,
     ["da", "de", "en", "es", "fi", "el", "he", "hu", "it", "nl", "no", "pt", "sv", "br"]),
   (PluralRuleKey.chinese,
     ["fa", "id", "ja", "ko", "lo", "ms", "th", "tr", "zh", "jp"]),
   (PluralRuleKey.french, ["fr", "tl", "pt-br"]),
   (PluralRuleKey.russian, ["hr", "ru", "uk", "uz"]),
   (PluralRuleKey.czech, ["cs", "sk"]),
   (PluralRuleKey.icelandic, ["is"]),
   (PluralRuleKey.polish, ["pl"]),
   (PluralRuleKey.arabic, ["ar"])]

/-- The langToRule index built at module load: every language tag of the
table, normalized, mapped to its rule family (the tags are pairwise
distinct, so insertion order does not matter for reads). -/
def langToRule : List (String × PluralRuleKey) :=
  (langMapping.map (fun p => p.2.map (fun lang => (normalizeLang lang, p.1)))).flatten

/-- A plural word form: a literal or a function of the count. -/
inductive Form where
  | lit (s : String)
  | fn (f : Int → String)

/-- Rule family resolution in pluralize: full normalized tag, then its base,
then the english default (the one-time console warning side channel is not
modelled; it does not affect the result). -/
def pluralRuleKeyFor (langCode : String) : PluralRuleKey :=
  let norm := normalizeLang langCode
  let base := baseOf norm
  (((lookupKey langToRule norm).orElse (fun _ => lookupKey langToRule base)).getD
    PluralRuleKey.english)

/-- forms[idx] with the nullish fallback to forms[forms.length - 1]. -/
def pluralSelect (forms : List Form) (idx : Nat) : Option Form :=
  (forms[idx]?).orElse (fun _ => forms[forms.length - 1]?)

/-- JS falsiness of the selected form: undefined, or the empty-string
literal (functions are always truthy). -/
def pluralFormFalsy : Option Form → Bool
  | none => true
  | some (Form.lit s) => s = ""
  | some (Form.fn _) => false

/-- pluralize from src/src/pluralize.ts (the source defaults langCode to
"en"; the default is passed explicitly here). -/
def pluralize (number : Int) (forms : List Form) (langCode : String) : String :=
  let idx := pluralRules (pluralRuleKeyFor langCode) number
  let form := pluralSelect forms idx
  if pluralFormFalsy form then toString number
  else
    match form with
    | some (Form.fn f) => f number
    | some (Form.lit s) => toString number ++ " " ++ s
    | none => toString number

/-! ## Helper observers used by the claim statements -/

/-- Whether a lookup result is a Renderer. -/
def isRendererO : Option RV → Bool
  | some (RV.fn _) => true
  | _ => false

/-- Run a lookup result as a Renderer when it is one. -/
def renderLookup (o : Option RV) (d : Data) : Option (Except TemplateExecutionError String) :=
  match o with
  | some (RV.fn f) => some (f d)
  | _ => none

/-- Whether an existing value (possibly absent) and an incoming value are
both plain objects, the test deciding the recursive branch of deepMerge. -/
def isTreePair : Option RV → RV → Bool
  | some (RV.tree _), RV.tree _ => true
  | _, _ => false

/-- The char normalization chain at the list level (trim, then lower, then
underscore replacement), shared by normalizeLang and normalizeLocale. -/
def normChars (l : List Char) : List Char :=
  ((trimChars l).map jsLowerChar).map jsUnderscoreChar

/-! ## Concrete fixtures used by witnesses and counterexamples -/

def fxRenderHello : TmplFn := fun _ => Except.ok "hello"

def fxRenderHi : TmplFn := fun _ => Except.ok "hi"

/-- A vm stub whose scripts all succeed. -/
def fxVm : String → Data → Except SandboxError String := fun _ _ => Except.ok ""

/-- A vm stub whose scripts all fail with one description. -/
def fxVmErr : String → Data → Except SandboxError String :=
  fun _ _ => Except.error { descr := "Error: boom" }

def fxCfg (dlom am : Bool) : I18nConfig :=
  { defaultLanguage := "en", defaultLanguageOnMissing := dlom, allowMissing := am,
    templateData := [] }

def fxCfgD (d : String) : I18nConfig :=
  { defaultLanguage := d, defaultLanguageOnMissing := false, allowMissing := true,
    templateData := [] }

def fxRepoEn : Repository := [("en", [("greeting", RV.fn fxRenderHello)])]

def fxCtx : I18nContext := mkI18nContext fxRepoEn (fxCfg false true) (some "en") []

/-- Repository where the requested locale holds an interior tree at key a
while the default locale holds a renderer there. -/
def fxRepoC1 : Repository :=
  [("fr", [("a", RV.tree [("b", RV.fn fxRenderHi)])]),
   ("en", [("a", RV.fn fxRenderHi)])]

def fxCtxC1 : I18nContext := mkI18nContext fxRepoC1 (fxCfg true true) (some "fr") []

/-- Context over a repository holding only en-us, with default language ru. -/
def fxCtxC2 : I18nContext := mkI18nContext [("en-us", [])] (fxCfgD "ru") none []

/-- Context over a repository holding only en. -/
def fxCtxEn : I18nContext := mkI18nContext [("en", [])] (fxCfgD "en") none []

def fxOptsC4 : I18nOptions :=
  { defaultLanguage := none, defaultLanguageOnMissing := some true,
    allowMissing := some false, templateData := none }

def fxCfgC4 : I18nConfig := mkI18nConfig fxOptsC4

def fxCtxC4 : I18nContext := mkI18nContext [("en", [])] fxCfgC4 none []

def fxTreeA : List (String × RV) :=
  [("x", RV.raw (RawLeaf.num 1)), ("t", RV.tree [("u", RV.raw RawLeaf.nullv)])]

def fxTreeB : List (String × RV) :=
  [("t", RV.tree [("u", RV.raw (RawLeaf.num 2))]), ("y", RV.raw (RawLeaf.boolean true))]

def fxStore : I18nStore :=
  { repository := [("en", [("greeting", RV.fn fxRenderHello)])], keysCache := [] }

/-! # Supporting lemmas -/

theorem toNat_ofNat_valid (n : Nat) (h : n.isValidChar) : (Char.ofNat n).toNat = n := by
  rw [Char.ofNat, dif_pos h]
  rfl

theorem jsLowerChar_toNat (c : Char) :
    (jsLowerChar c).toNat = if 65 ≤ c.toNat ∧ c.toNat ≤ 90 then c.toNat + 32 else c.toNat := by
  unfold jsLowerChar
  by_cases h : 65 ≤ c.toNat ∧ c.toNat ≤ 90
  · have hv : (c.toNat + 32).isValidChar := by
      unfold Nat.isValidChar
      left
      omega
    simp [h, toNat_ofNat_valid _ hv]
  · simp [h]

theorem jsUnderscoreChar_toNat (c : Char) :
    (jsUnderscoreChar c).toNat = if c.toNat = 95 then 45 else c.toNat := by
  unfold jsUnderscoreChar
  by_cases h : c.toNat = 95 <;> simp [h]

theorem jsLowerChar_idem (c : Char) : jsLowerChar (jsLowerChar c) = jsLowerChar c := by
  have h1 := jsLowerChar_toNat c
  unfold jsLowerChar
  by_cases h : 65 ≤ c.toNat ∧ c.toNat ≤ 90
  · rw [if_pos h] at h1
    have h2 : ¬ (65 ≤ (jsLowerChar c).toNat ∧ (jsLowerChar c).toNat ≤ 90) := by omega
    unfold jsLowerChar at h2
    rw [if_pos h] at h2 ⊢
    rw [if_neg h2]
  · simp [h]

theorem jsUnderscoreChar_jsLowerChar_self (c : Char) (h : 65 ≤ c.toNat ∧ c.toNat ≤ 90) :
    jsUnderscoreChar (jsLowerChar c) = jsLowerChar c := by
  have h1 := jsLowerChar_toNat c
  rw [if_pos h] at h1
  unfold jsUnderscoreChar
  rw [if_neg (by omega)]

/-- The per-char normalization (lower-case then underscore replacement) is
idempotent. -/
theorem normChar_idem (c : Char) :
    jsUnderscoreChar (jsLowerChar (jsUnderscoreChar (jsLowerChar c)))
      = jsUnderscoreChar (jsLowerChar c) := by
  by_cases h : 65 ≤ c.toNat ∧ c.toNat ≤ 90
  · rw [jsUnderscoreChar_jsLowerChar_self c h, jsLowerChar_idem,
      jsUnderscoreChar_jsLowerChar_self c h]
  · have e0 : jsLowerChar c = c := by
      unfold jsLowerChar
      rw [if_neg h]
    rw [e0]
    by_cases h2 : c.toNat = 95
    · have e1 : jsUnderscoreChar c = '-' := by
        unfold jsUnderscoreChar
        rw [if_pos h2]
      rw [e1]
      decide
    · have e1 : jsUnderscoreChar c = c := by
        unfold jsUnderscoreChar
        rw [if_neg h2]
      rw [e1, e0, e1]

theorem jsWhitespaceChar_decide (c : Char) :
    jsWhitespaceChar c
      = decide (c.toNat = 32 ∨ c.toNat = 9 ∨ c.toNat = 10 ∨ c.toNat = 13 ∨
                c.toNat = 11 ∨ c.toNat = 12) := by
  simp [jsWhitespaceChar, Bool.decide_or, Bool.or_assoc]

theorem jsWhitespaceChar_jsLowerChar (c : Char) :
    jsWhitespaceChar (jsLowerChar c) = jsWhitespaceChar c := by
  have h1 := jsLowerChar_toNat c
  rw [jsWhitespaceChar_decide, jsWhitespaceChar_decide, decide_eq_decide, h1]
  split_ifs <;> omega

theorem jsWhitespaceChar_jsUnderscoreChar (c : Char) :
    jsWhitespaceChar (jsUnderscoreChar c) = jsWhitespaceChar c := by
  have h1 := jsUnderscoreChar_toNat c
  rw [jsWhitespaceChar_decide, jsWhitespaceChar_decide, decide_eq_decide, h1]
  split_ifs <;> omega

theorem dropWhile_dropWhile (p : Char → Bool) (l : List Char) :
    List.dropWhile p (List.dropWhile p l) = List.dropWhile p l := by
  induction l with
  | nil => rfl
  | cons a t ih =>
    by_cases h : p a
    · simp [List.dropWhile, h, ih]
    · simp [List.dropWhile, h]

theorem dropWhile_head_false (p : Char → Bool) :
    ∀ (l : List Char) (a : Char) (t : List Char),
      List.dropWhile p l = a :: t → p a = false := by
  intro l
  induction l with
  | nil =>
    intro a t h
    simp [List.dropWhile] at h
  | cons x xs ih =>
    intro a t h
    by_cases hx : p x
    · rw [List.dropWhile_cons_of_pos hx] at h
      exact ih a t h
    · rw [List.dropWhile_cons_of_neg hx] at h
      injection h with h1 h2
      rw [← h1]
      simpa using hx

theorem dropWhile_append_singleton (p : Char → Bool) (a : Char) (h : p a = false) :
    ∀ ys : List Char, ∃ s, List.dropWhile p (ys ++ [a]) = s ++ [a] := by
  intro ys
  induction ys with
  | nil =>
    refine ⟨[], ?_⟩
    simp [List.dropWhile, h]
  | cons y t ih =>
    by_cases hy : p y
    · obtain ⟨s, hs⟩ := ih
      refine ⟨s, ?_⟩
      rw [List.cons_append, List.dropWhile_cons_of_pos hy, hs]
    · refine ⟨y :: t, ?_⟩
      rw [List.cons_append, List.dropWhile_cons_of_neg hy]

theorem dropWhile_trimChars (l : List Char) :
    List.dropWhile jsWhitespaceChar (trimChars l) = trimChars l := by
  unfold trimChars
  cases hm : List.dropWhile jsWhitespaceChar l with
  | nil => simp [hm]
  | cons a t =>
    have ha : jsWhitespaceChar a = false := dropWhile_head_false _ l a t hm
    rw [List.reverse_cons]
    obtain ⟨s, hs⟩ := dropWhile_append_singleton jsWhitespaceChar a ha t.reverse
    rw [hs, List.reverse_append]
    simp [List.dropWhile, ha]

theorem trimChars_idem (l : List Char) : trimChars (trimChars l) = trimChars l := by
  have h1 : List.dropWhile jsWhitespaceChar (trimChars l) = trimChars l := dropWhile_trimChars l
  show ((List.dropWhile jsWhitespaceChar (trimChars l)).reverse.dropWhile
    jsWhitespaceChar).reverse = trimChars l
  rw [h1]
  have h2 : (trimChars l).reverse
      = List.dropWhile jsWhitespaceChar ((List.dropWhile jsWhitespaceChar l).reverse) := by
    unfold trimChars
    rw [List.reverse_reverse]
  rw [h2, dropWhile_dropWhile, ← h2, List.reverse_reverse]

theorem trimChars_map (f : Char → Char)
    (hf : ∀ c, jsWhitespaceChar (f c) = jsWhitespaceChar c) (l : List Char) :
    trimChars (l.map f) = (trimChars l).map f := by
  have hp : (jsWhitespaceChar ∘ f) = jsWhitespaceChar := funext hf
  unfold trimChars
  rw [List.dropWhile_map, hp, ← List.map_reverse, List.dropWhile_map, hp, ← List.map_reverse]

theorem mapNorm_idem (l : List Char) :
    (((l.map jsLowerChar).map jsUnderscoreChar).map jsLowerChar).map jsUnderscoreChar
      = (l.map jsLowerChar).map jsUnderscoreChar := by
  induction l with
  | nil => rfl
  | cons c t ih =>
    simp only [List.map_cons, List.cons.injEq]
    exact ⟨normChar_idem c, ih⟩

theorem normChars_idem (l : List Char) : normChars (normChars l) = normChars l := by
  unfold normChars
  rw [trimChars_map jsUnderscoreChar jsWhitespaceChar_jsUnderscoreChar,
    trimChars_map jsLowerChar jsWhitespaceChar_jsLowerChar, trimChars_idem]
  exact mapNorm_idem (trimChars l)

theorem normalizeLang_eq_normChars (code : String) :
    normalizeLang code = String.mk (normChars code.data) := rfl

theorem normalizeLang_idem (code : String) :
    normalizeLang (normalizeLang code) = normalizeLang code := by
  rw [normalizeLang_eq_normChars code]
  rw [normalizeLang_eq_normChars (String.mk (normChars code.data))]
  exact congrArg String.mk (normChars_idem code.data)

theorem normalizeLocale_fst (code : String) : (normalizeLocale code).1 = normalizeLang code := rfl

theorem normalizeLocale_idem (code : String) :
    normalizeLocale ((normalizeLocale code).1) = normalizeLocale code := by
  unfold normalizeLocale
  rw [show ((jsUnderscoreToHyphen (jsToLower (jsTrim code)))) = normalizeLang code from rfl]
  rw [show (jsUnderscoreToHyphen (jsToLower (jsTrim (normalizeLang code)))) =
    normalizeLang (normalizeLang code) from rfl]
  rw [normalizeLang_idem]

theorem jsToLower_idem (s : String) : jsToLower (jsToLower s) = jsToLower s := by
  unfold jsToLower
  refine congrArg String.mk ?_
  show (s.data.map jsLowerChar).map jsLowerChar = s.data.map jsLowerChar
  rw [List.map_map]
  exact List.map_congr_left (fun c _ => jsLowerChar_idem c)

theorem jsToLower_eq_empty_iff (s : String) : jsToLower s = "" ↔ s = "" := by
  cases s with
  | mk d =>
    unfold jsToLower
    constructor
    · intro h
      have hd : d.map jsLowerChar = [] := congrArg String.data h
      have hd2 : d = [] := List.map_eq_nil_iff.mp hd
      rw [hd2]
    · intro h
      have hd : d = [] := congrArg String.data h
      rw [hd]
      rfl

theorem lookupKey_setKey (a : List (String × α)) (k : String) (v : α) (k2 : String) :
    lookupKey (setKey a k v) k2 = if k = k2 then some v else lookupKey a k2 := by
  induction a with
  | nil =>
    by_cases h : k = k2 <;> simp [setKey, lookupKey, h]
  | cons hd tl ih =>
    obtain ⟨k0, v0⟩ := hd
    by_cases h0 : k0 = k
    · subst h0
      by_cases h2 : k0 = k2 <;> simp [setKey, lookupKey, h2]
    · by_cases h2 : k0 = k2
      · subst h2
        have hne : ¬ k = k0 := fun h => h0 h.symm
        simp [setKey, lookupKey, h0, hne]
      · simp [setKey, lookupKey, h0, h2, ih]

theorem lookupKey_eq_none_of_not_mem (l : List (String × α)) (k : String)
    (h : k ∉ l.map Prod.fst) : lookupKey l k = none := by
  induction l with
  | nil => rfl
  | cons hd tl ih =>
    obtain ⟨k0, v0⟩ := hd
    simp only [List.map_cons, List.mem_cons] at h
    push_neg at h
    have h0 : k0 ≠ k := fun he => h.1 he.symm
    simp [lookupKey, h0, ih h.2]

theorem isTreePair_iff (o : Option RV) (v : RV) :
    isTreePair o v = true ↔ ∃ ta tb, o = some (RV.tree ta) ∧ v = RV.tree tb := by
  rcases o with _ | ov
  · simp [isTreePair]
  · cases ov <;> cases v <;> simp [isTreePair]

/-- The cons step of deepMerge when the existing and incoming values are
both plain objects. -/
theorem deepMerge_cons_tree (a : List (String × RV)) (k0 : String)
    (ta tb tl : List (String × RV)) (hv : lookupKey a k0 = some (RV.tree ta)) :
    deepMerge a ((k0, RV.tree tb) :: tl)
      = deepMerge (setKey a k0 (RV.tree (deepMerge ta tb))) tl :=
  deepMerge.eq_2 a k0 tl ta tb hv

/-- The cons step of deepMerge in every other case: the incoming value
replaces the existing one. -/
theorem deepMerge_cons_other (a : List (String × RV)) (k0 : String) (bv0 : RV)
    (tl : List (String × RV)) (hpair : isTreePair (lookupKey a k0) bv0 = false) :
    deepMerge a ((k0, bv0) :: tl) = deepMerge (setKey a k0 bv0) tl := by
  refine deepMerge.eq_3 a k0 tl bv0 ?_
  intro ta tb h1 h2
  rw [h1, h2] at hpair
  simp [isTreePair] at hpair

/-- Keys absent from the incoming object keep the value of the existing
object through deepMerge. -/
theorem deepMerge_lookup_none (b : List (String × RV)) :
    ∀ (a : List (String × RV)) (k : String), lookupKey b k = none →
      lookupKey (deepMerge a b) k = lookupKey a k := by
  induction b with
  | nil =>
    intro a k _
    rw [deepMerge]
  | cons hd tl ih =>
    obtain ⟨k0, bv0⟩ := hd
    intro a k h
    by_cases hk : k0 = k
    · rw [lookupKey, if_pos hk] at h
      exact absurd h (by simp)
    · rw [lookupKey, if_neg hk] at h
      by_cases hp : isTreePair (lookupKey a k0) bv0 = true
      · obtain ⟨ta0, tb0, h1, h2⟩ := (isTreePair_iff _ _).mp hp
        subst h2
        rw [deepMerge_cons_tree a k0 ta0 tb0 tl h1, ih _ k h, lookupKey_setKey, if_neg hk]
      · rw [deepMerge_cons_other a k0 bv0 tl (by simpa using hp), ih _ k h,
          lookupKey_setKey, if_neg hk]

/-- Keys of the incoming object that do not hit the tree-tree case take the
incoming value. -/
theorem deepMerge_lookup_replace (b : List (String × RV)) :
    ∀ (a : List (String × RV)) (k : String) (bv : RV),
      (b.map Prod.fst).Nodup → lookupKey b k = some bv →
      isTreePair (lookupKey a k) bv = false →
      lookupKey (deepMerge a b) k = some bv := by
  induction b with
  | nil =>
    intro a k bv _ hfind _
    exact absurd hfind (by simp [lookupKey])
  | cons hd tl ih =>
    obtain ⟨k0, bv0⟩ := hd
    intro a k bv hb hfind hpair
    simp only [List.map_cons, List.nodup_cons] at hb
    by_cases hk : k0 = k
    · subst hk
      rw [lookupKey, if_pos rfl] at hfind
      have hbv : bv0 = bv := by
        injection hfind
      subst hbv
      have htl : lookupKey tl k0 = none := lookupKey_eq_none_of_not_mem tl k0 hb.1
      rw [deepMerge_cons_other a k0 bv0 tl hpair,
        deepMerge_lookup_none tl _ k0 htl, lookupKey_setKey, if_pos rfl]
    · rw [lookupKey, if_neg hk] at hfind
      by_cases hp : isTreePair (lookupKey a k0) bv0 = true
      · obtain ⟨ta0, tb0, h1, h2⟩ := (isTreePair_iff _ _).mp hp
        subst h2
        rw [deepMerge_cons_tree a k0 ta0 tb0 tl h1]
        refine ih _ k bv hb.2 hfind ?_
        rw [lookupKey_setKey, if_neg hk]
        exact hpair
      · rw [deepMerge_cons_other a k0 bv0 tl (by simpa using hp)]
        refine ih _ k bv hb.2 hfind ?_
        rw [lookupKey_setKey, if_neg hk]
        exact hpair

/-- Keys where both the existing and the incoming value are plain objects
merge recursively. -/
theorem deepMerge_lookup_tree (b : List (String × RV)) :
    ∀ (a : List (String × RV)) (k : String) (ta tb : List (String × RV)),
      (b.map Prod.fst).Nodup →
      lookupKey a k = some (RV.tree ta) → lookupKey b k = some (RV.tree tb) →
      lookupKey (deepMerge a b) k = some (RV.tree (deepMerge ta tb)) := by
  induction b with
  | nil =>
    intro a k ta tb _ _ hfind
    exact absurd hfind (by simp [lookupKey])
  | cons hd tl ih =>
    obtain ⟨k0, bv0⟩ := hd
    intro a k ta tb hb ha hfind
    simp only [List.map_cons, List.nodup_cons] at hb
    by_cases hk : k0 = k
    · subst hk
      rw [lookupKey, if_pos rfl] at hfind
      have hbv : bv0 = RV.tree tb := by
        injection hfind
      subst hbv
      have htl : lookupKey tl k0 = none := lookupKey_eq_none_of_not_mem tl k0 hb.1
      rw [deepMerge_cons_tree a k0 ta tb tl ha,
        deepMerge_lookup_none tl _ k0 htl, lookupKey_setKey, if_pos rfl]
    · rw [lookupKey, if_neg hk] at hfind
      by_cases hp : isTreePair (lookupKey a k0) bv0 = true
      · obtain ⟨ta0, tb0, h1, h2⟩ := (isTreePair_iff _ _).mp hp
        subst h2
        rw [deepMerge_cons_tree a k0 ta0 tb0 tl h1]
        refine ih _ k ta tb hb.2 ?_ hfind
        rw [lookupKey_setKey, if_neg hk]
        exact ha
      · rw [deepMerge_cons_other a k0 bv0 tl (by simpa using hp)]
        refine ih _ k ta tb hb.2 ?_ hfind
        rw [lookupKey_setKey, if_neg hk]
        exact ha

/-! # Claim theorems -/

/-- C3: any failure of the sandboxed evaluation (a thrown expression or the
execution-budget timeout, both SandboxError outcomes of the abstracted vm
run) makes the compiled renderer return the single TemplateExecutionError
carrying the original failure description, never a string; the sandbox
failure type cannot reach the caller (the renderer result type only carries
TemplateExecutionError). -/
theorem c3_template_error_wrapped (vmRun : String → Data → Except SandboxError String)
    (template : String) (defaultContext : Data) (context : Data) (e : SandboxError)
    (h : vmRun template (jsSpread defaultContext context) = Except.error e) :
    compile vmRun template defaultContext context = Except.error { message := e.descr }
    ∧ ∀ r : String, compile vmRun template defaultContext context ≠ Except.ok r := by
  unfold compile
  rw [h]
  exact ⟨rfl, fun r hr => by simp at hr⟩

theorem c3_template_error_wrapped_witness :
    compile fxVmErr "$\x7bx\x7d" [] [] = Except.error { message := "Error: boom" } :=
  (c3_template_error_wrapped fxVmErr "$\x7bx\x7d" [] [] { descr := "Error: boom" } rfl).1

/-- C4: the claim (and the README of the repository) state that
defaultLanguageOnMissing set makes allowMissing behave as set. The code has
no such composition: with defaultLanguageOnMissing true and allowMissing
explicitly false, a key missing everywhere throws the not-found error
instead of rendering the raw key. -/
theorem c4_flag_composition_bug :
    fxCfgC4.defaultLanguageOnMissing = true
    ∧ fxCfgC4.allowMissing = false
    ∧ t fxCtxC4 "greeting" [] = Except.error (I18nError.keyNotFound "en" "greeting") :=
  ⟨rfl, rfl, rfl⟩

/-- C5: for trees with unique keys (JS objects), deepMerge gives, per key:
the recursive merge when both values are trees, otherwise the incoming
value for keys of b, and the unchanged value of a for keys absent from b. -/
theorem c5_deep_merge_semantics (a b : List (String × RV))
    (hb : (b.map Prod.fst).Nodup) (k : String) :
    (∀ ta tb, lookupKey a k = some (RV.tree ta) → lookupKey b k = some (RV.tree tb) →
       lookupKey (deepMerge a b) k = some (RV.tree (deepMerge ta tb)))
    ∧ (∀ bv, lookupKey b k = some bv → isTreePair (lookupKey a k) bv = false →
       lookupKey (deepMerge a b) k = some bv)
    ∧ (lookupKey b k = none → lookupKey (deepMerge a b) k = lookupKey a k) :=
  ⟨fun ta tb h1 h2 => deepMerge_lookup_tree b a k ta tb hb h1 h2,
   fun bv h1 h2 => deepMerge_lookup_replace b a k bv hb h1 h2,
   fun h => deepMerge_lookup_none b a k h⟩

theorem c5_deep_merge_semantics_witness :
    lookupKey (deepMerge fxTreeA fxTreeB) "t"
      = some (RV.tree (deepMerge [("u", RV.raw RawLeaf.nullv)] [("u", RV.raw (RawLeaf.num 2))]))
    ∧ lookupKey (deepMerge fxTreeA fxTreeB) "y" = some (RV.raw (RawLeaf.boolean true))
    ∧ lookupKey (deepMerge fxTreeA fxTreeB) "x" = lookupKey fxTreeA "x" :=
  ⟨(c5_deep_merge_semantics fxTreeA fxTreeB (by decide) "t").1 _ _ rfl rfl,
   (c5_deep_merge_semantics fxTreeA fxTreeB (by decide) "y").2.1 _ rfl rfl,
   (c5_deep_merge_semantics fxTreeA fxTreeB (by decide) "x").2.2 rfl⟩

theorem compileTemplates_not_tree (vmRun : String → Data → Except SandboxError String)
    (d : Raw) (h : d.isObj = false) :
    ∀ entries, compileTemplates vmRun d ≠ RV.tree entries := by
  intro entries
  cases d with
  | obj fields => simp [Raw.isObj] at h
  | str s =>
    simp only [compileTemplates]
    split <;> simp
  | arr e => simp [compileTemplates]
  | num q => simp [compileTemplates]
  | boolean b2 => simp [compileTemplates]
  | nullv => simp [compileTemplates]

/-- C7: when the root of the loaded data is not an object, loadLocale raises
the InvalidResourceShapeError naming the normalized locale and leaves the
repository and the key-set cache exactly as they were. -/
theorem c7_invalid_root_shape (vmRun : String → Data → Except SandboxError String)
    (st : I18nStore) (lang : String) (d : Raw) (h : d.isObj = false) :
    loadLocale vmRun st lang d
      = (st, some (I18nError.invalidResourceShape (normalizeLocale lang).1)) := by
  have hne := compileTemplates_not_tree vmRun d h
  unfold loadLocale
  cases hc : compileTemplates vmRun d with
  | tree entries => exact absurd hc (hne entries)
  | fn f => rfl
  | arr e => rfl
  | raw lf => rfl

theorem c7_invalid_root_shape_witness :
    (Raw.str "oops").isObj = false
    ∧ loadLocale fxVm fxStore "EN" (Raw.str "oops")
      = (fxStore, some (I18nError.invalidResourceShape "en")) :=
  ⟨rfl, c7_invalid_root_shape fxVm fxStore "EN" (Raw.str "oops") rfl⟩

/-- C10: when the lookup under the effective full locale yields an interior
tree node, t throws the key-not-found error naming the effective locale,
whatever the allowMissing and defaultLanguageOnMissing flags say: the
truthy tree suppresses both fallback branches, which fire only on falsy
lookup results. -/
theorem c10_tree_node_throws (c : I18nContext) (key : String) (d : Data)
    (entries : List (String × RV))
    (h : getTemplate c c.languageCode key = some (RV.tree entries)) :
    t c key d = Except.error (I18nError.keyNotFound c.languageCode key) := by
  simp [t, tLookup3, tLookup2, tLookup1, h, isNullishO, isTruthyO]

theorem c10_tree_node_throws_witness :
    fxCtxC1.config.allowMissing = true
    ∧ fxCtxC1.config.defaultLanguageOnMissing = true
    ∧ t fxCtxC1 "a" [] = Except.error (I18nError.keyNotFound "fr" "a") :=
  ⟨rfl, rfl, c10_tree_node_throws fxCtxC1 "a" [] [("b", RV.fn fxRenderHi)] rfl⟩

/-- C8 counterexample: with the empty-string literal as the selected form,
pluralize returns the count alone (the falsy form test), not
"<count> <literal>" as the claim states for every literal form. -/
theorem c8_pluralize_counterexample :
    pluralize 1 [Form.lit ""] "en" = "1"
    ∧ toString (1 : Int) ++ " " ++ "" = "1 "
    ∧ ("1" : String) ≠ "1 " :=
  ⟨rfl, rfl, by decide⟩

/-- C8 amended: pluralize computes the rule family index and clamps to the
last supplied form when the index is out of range; a nonempty literal form
yields "<count> <literal>" (the empty-string literal is treated as missing
and yields the count alone), a function form is applied to the raw count,
and an empty form list yields the count stringified; in particular the two
apple examples hold. -/
theorem c8_pluralize_amended (n : Int) (forms : List Form) (lang : String) :
    (∀ s, s ≠ "" → forms[pluralRules (pluralRuleKeyFor lang) n]? = some (Form.lit s) →
       pluralize n forms lang = toString n ++ " " ++ s)
    ∧ (∀ f, forms[pluralRules (pluralRuleKeyFor lang) n]? = some (Form.fn f) →
       pluralize n forms lang = f n)
    ∧ (forms[pluralRules (pluralRuleKeyFor lang) n]? = none →
       ∀ s, s ≠ "" → forms[forms.length - 1]? = some (Form.lit s) →
       pluralize n forms lang = toString n ++ " " ++ s)
    ∧ (forms[pluralRules (pluralRuleKeyFor lang) n]? = none →
       ∀ f, forms[forms.length - 1]? = some (Form.fn f) →
       pluralize n forms lang = f n)
    ∧ (forms = [] → pluralize n forms lang = toString n)
    ∧ pluralize 1 [Form.lit "apple", Form.lit "apples"] "en" = "1 apple"
    ∧ pluralize 5 [Form.lit "apple", Form.lit "apples"] "en" = "5 apples" := by
  refine ⟨?_, ?_, ?_, ?_, ?_, rfl, rfl⟩
  · intro s hs h
    simp [pluralize, pluralSelect, pluralFormFalsy, h, Option.orElse, hs]
  · intro f h
    simp [pluralize, pluralSelect, pluralFormFalsy, h, Option.orElse]
  · intro hnone s hs h
    simp [pluralize, pluralSelect, pluralFormFalsy, hnone, h, Option.orElse, hs]
  · intro hnone f h
    simp [pluralize, pluralSelect, pluralFormFalsy, hnone, h, Option.orElse]
  · intro h
    subst h
    rfl

theorem c8_pluralize_witness :
    pluralize 2 [Form.lit "apple", Form.lit "apples"] "en" = "2 apples" := by
  have h := (c8_pluralize_amended 2 [Form.lit "apple", Form.lit "apples"] "en").1
    "apples" (by decide) rfl
  exact h.trans rfl

/-- C9: translationProgress is (referenceCount - missingCount) /
referenceCount in exact rationals, lies in the unit interval, equals 1 for
identical locales and equals 1 when the reference locale has no keys. -/
theorem c9_progress_bounds (st : I18nStore) (x y : String) :
    0 ≤ translationProgress st x y
    ∧ translationProgress st x y ≤ 1
    ∧ (x = y → translationProgress st x y = 1)
    ∧ (resourceKeys st y = [] → translationProgress st x y = 1) := by
  have hlen : (missingKeys st x y).length ≤ (resourceKeys st y).length :=
    List.length_filter_le _ _
  by_cases h0 : (resourceKeys st y).length = 0
  · refine ⟨?_, ?_, ?_, ?_⟩ <;> simp [translationProgress, h0]
  · have hpos : (0 : Rat) < ((resourceKeys st y).length : Rat) := by
      have : 0 < (resourceKeys st y).length := Nat.pos_of_ne_zero h0
      exact_mod_cast this
    have hcast : ((missingKeys st x y).length : Rat) ≤ ((resourceKeys st y).length : Rat) := by
      exact_mod_cast hlen
    have hval : translationProgress st x y
        = (((resourceKeys st y).length : Rat) - ((missingKeys st x y).length : Rat))
          / ((resourceKeys st y).length : Rat) := by
      simp [translationProgress, h0]
    refine ⟨?_, ?_, ?_, ?_⟩
    · rw [hval]
      apply div_nonneg _ (le_of_lt hpos)
      linarith
    · rw [hval, div_le_one hpos]
      have hmn : (0 : Rat) ≤ ((missingKeys st x y).length : Rat) := by positivity
      linarith
    · intro hxy
      subst hxy
      have hms : missingKeys st x x = [] := by
        unfold missingKeys
        rw [List.filter_eq_nil_iff]
        intro a ha
        simpa using ha
      rw [hval, hms]
      simp only [List.length_nil, Nat.cast_zero, sub_zero]
      exact div_self (ne_of_gt hpos)
    · intro hk
      rw [hk] at h0
      simp at h0

theorem c9_progress_bounds_witness :
    translationProgress fxStore "en" "en" = 1 :=
  (c9_progress_bounds fxStore "en" "en").2.2.1 rfl

/-- C1 counterexample: at a concrete context the full-locale and base-locale
lookups yield no Renderer (an interior tree), defaultLanguageOnMissing and
allowMissing are set, the default locale holds a Renderer producing hi,
and yet t throws the not-found error instead of falling through to it, contra
the claim that a non-Renderer result triggers the default-locale lookup. -/
theorem c1_render_fallback_counterexample :
    isRendererO (getTemplate fxCtxC1 fxCtxC1.languageCode "a") = false
    ∧ isRendererO (getTemplate fxCtxC1 fxCtxC1.shortLanguageCode "a") = false
    ∧ fxCtxC1.config.defaultLanguageOnMissing = true
    ∧ fxCtxC1.config.allowMissing = true
    ∧ renderLookup (getTemplate fxCtxC1 fxCtxC1.config.defaultLanguage "a") []
        = some (Except.ok "hi")
    ∧ t fxCtxC1 "a" [] = Except.error (I18nError.keyNotFound "fr" "a") :=
  ⟨rfl, rfl, rfl, rfl, rfl, rfl⟩

/-- C1 amended: t consults the base locale only when the full-locale lookup
is null or undefined; a Renderer found under the full locale always wins
(fallback monotonicity); when the full and base lookups give nothing, the
default-locale lookup applies under defaultLanguageOnMissing and the
raw-key renderer under allowMissing; when every lookup gives nothing and
allowMissing is off, t throws the error whose message contains the
effective locale and the key. (A truthy non-Renderer lookup result, such
as an interior tree, instead throws immediately: see the claim about tree
nodes.) -/
theorem c1_render_fallback_amended (c : I18nContext) (key : String) (d : Data) :
    (∀ f, getTemplate c c.languageCode key = some (RV.fn f) →
       t c key d = (f (jsSpread c.templateData d)).mapError I18nError.templateExec)
    ∧ (getTemplate c c.languageCode key = none →
       ∀ f, getTemplate c c.shortLanguageCode key = some (RV.fn f) →
       t c key d = (f (jsSpread c.templateData d)).mapError I18nError.templateExec)
    ∧ (getTemplate c c.languageCode key = none →
       getTemplate c c.shortLanguageCode key = none →
       c.config.defaultLanguageOnMissing = true →
       ∀ f, getTemplate c c.config.defaultLanguage key = some (RV.fn f) →
       t c key d = (f (jsSpread c.templateData d)).mapError I18nError.templateExec)
    ∧ (getTemplate c c.languageCode key = none →
       getTemplate c c.shortLanguageCode key = none →
       getTemplate c c.config.defaultLanguage key = none →
       (c.config.allowMissing = true → t c key d = Except.ok key)
       ∧ (c.config.allowMissing = false →
           t c key d = Except.error (I18nError.keyNotFound c.languageCode key)
           ∧ ∃ s1 s2 s3, errMessage (I18nError.keyNotFound c.languageCode key)
               = s1 ++ c.languageCode ++ s2 ++ key ++ s3)) := by
  refine ⟨?_, ?_, ?_, ?_⟩
  · intro f h
    simp [t, tLookup3, tLookup2, tLookup1, h, isNullishO, isTruthyO]
  · intro h1 f h2
    simp [t, tLookup3, tLookup2, tLookup1, h1, h2, isNullishO, isTruthyO]
  · intro h1 h2 hd f h3
    simp [t, tLookup3, tLookup2, tLookup1, h1, h2, hd, h3, isNullishO, isTruthyO]
  · intro h1 h2 h3
    constructor
    · intro ham
      by_cases hd : c.config.defaultLanguageOnMissing = true
      · simp [t, tLookup3, tLookup2, tLookup1, h1, h2, h3, hd, ham, isNullishO, isTruthyO,
          Except.mapError]
      · simp [t, tLookup3, tLookup2, tLookup1, h1, h2, h3, hd, ham, isNullishO, isTruthyO,
          Except.mapError]
    · intro ham
      refine ⟨?_, "@tgify/i18n: \x27", ".", "\x27 not found", rfl⟩
      by_cases hd : c.config.defaultLanguageOnMissing = true
      · simp [t, tLookup3, tLookup2, tLookup1, h1, h2, h3, hd, ham, isNullishO, isTruthyO]
      · simp [t, tLookup3, tLookup2, tLookup1, h1, h2, h3, hd, ham, isNullishO, isTruthyO]

theorem c1_render_fallback_witness : t fxCtx "greeting" [] = Except.ok "hello" := by
  have h := (c1_render_fallback_amended fxCtx "greeting" []).1 fxRenderHello rfl
  exact h.trans rfl

/-- C2 counterexample: with the repository holding exactly the key en-us and
default language ru, requesting en_US - whose spec normalization en-us is a
repository key - still falls back to ru, because the context resolution
only lower-cases and never replaces underscores. -/
theorem c2_locale_resolution_counterexample :
    (lookupKey fxCtxC2.repository ((normalizeLocale "en_US").1)).isSome = true
    ∧ (localeSet fxCtxC2 "en_US").languageCode = "ru"
    ∧ (localeSet fxCtxC2 "en_US").languageCode ≠ (normalizeLocale "en_US").1 :=
  ⟨rfl, rfl, by decide⟩

/-- C2 amended: resolution applies only lower-casing to the requested tag.
With the lower-cased tag and its hyphen base: when either is a repository
key the effective locale is that pair; when neither is, the effective
locale is the configured default language and its base, regardless of the
requested tag. -/
theorem c2_locale_resolution_amended (c : I18nContext) (code : String) (h : code ≠ "") :
    (((lookupKey c.repository (jsToLower code)).isSome = true ∨
        (lookupKey c.repository (baseOf (jsToLower code))).isSome = true) →
      (localeSet c code).languageCode = jsToLower code
      ∧ (localeSet c code).shortLanguageCode = baseOf (jsToLower code))
    ∧ (lookupKey c.repository (jsToLower code) = none →
       lookupKey c.repository (baseOf (jsToLower code)) = none →
      (localeSet c code).languageCode = c.config.defaultLanguage
      ∧ (localeSet c code).shortLanguageCode = baseOf c.config.defaultLanguage) := by
  constructor
  · intro hmem
    have hcond : ¬ ((lookupKey c.repository (jsToLower code)).isNone = true ∧
        (lookupKey c.repository (baseOf (jsToLower code))).isNone = true) := by
      intro hboth
      simp only [Option.isNone_iff_eq_none] at hboth
      rcases hmem with h1 | h1
      · rw [hboth.1] at h1
        simp at h1
      · rw [hboth.2] at h1
        simp at h1
    simp only [localeSet, h, if_false, ite_false]
    rw [if_neg hcond]
    exact ⟨rfl, rfl⟩
  · intro ha hb
    simp [localeSet, h, ha, hb]

theorem c2_locale_resolution_witness :
    (localeSet fxCtxEn "en-us").languageCode = "en-us"
    ∧ (localeSet fxCtxEn "en-us").shortLanguageCode = "en" := by
  have h := (c2_locale_resolution_amended fxCtxEn "en-us" (by decide)).1
    (Or.inr (by rfl))
  exact ⟨h.1.trans rfl, h.2.trans rfl⟩

/-- C6 counterexample: context locale resolution does not factor through the
full normalization: for the tag en_us over a repository holding en-us, the
code falls back to the default ru while resolving the normalized tag gives
en-us. -/
theorem c6_normalization_ingress_counterexample :
    (localeSet fxCtxC2 "en_us").languageCode = "ru"
    ∧ (localeSet fxCtxC2 ((normalizeLocale "en_us").1)).languageCode = "en-us"
    ∧ (localeSet fxCtxC2 "en_us").languageCode
        ≠ (localeSet fxCtxC2 ((normalizeLocale "en_us").1)).languageCode :=
  ⟨rfl, rfl, by decide⟩

/-- C6 amended: normalization (trim, lower-case, underscores to hyphens) is
idempotent, and is applied at the load ingress (loadLocale), the key-set
ingress (resourceKeys) and the pluralization ingress, so those operations
are invariant under pre-normalizing their locale tag; the context locale
resolution however applies only lower-casing (no trim, no underscore
replacement), so it is invariant only under pre-lower-casing. -/
theorem c6_normalization_ingress_amended :
    (∀ s : String, normalizeLocale ((normalizeLocale s).1) = normalizeLocale s
       ∧ normalizeLang (normalizeLang s) = normalizeLang s)
    ∧ (∀ (vmRun : String → Data → Except SandboxError String) (st : I18nStore)
         (l : String) (d : Raw),
         loadLocale vmRun st l d = loadLocale vmRun st ((normalizeLocale l).1) d)
    ∧ (∀ (st : I18nStore) (l : String),
         resourceKeys st l = resourceKeys st ((normalizeLocale l).1))
    ∧ (∀ (n : Int) (forms : List Form) (lang : String),
         pluralize n forms lang = pluralize n forms (normalizeLang lang))
    ∧ (∀ (c : I18nContext) (code : String), code ≠ "" →
         localeSet c code = localeSet c (jsToLower code)) := by
  have hfst : ∀ s : String,
      (normalizeLocale ((normalizeLocale s).1)).1 = (normalizeLocale s).1 :=
    fun s => congrArg Prod.fst (normalizeLocale_idem s)
  refine ⟨fun s => ⟨normalizeLocale_idem s, normalizeLang_idem s⟩, ?_, ?_, ?_, ?_⟩
  · intro vmRun st l d
    unfold loadLocale
    rw [hfst l]
  · intro st l
    unfold resourceKeys
    rw [hfst l]
  · intro n forms lang
    unfold pluralize pluralRuleKeyFor
    rw [normalizeLang_idem]
  · intro c code hc
    have hc2 : jsToLower code ≠ "" := fun he => hc ((jsToLower_eq_empty_iff code).mp he)
    unfold localeSet
    rw [if_neg hc, if_neg hc2, jsToLower_idem]

theorem c6_normalization_ingress_witness :
    localeSet fxCtxEn "EN" = localeSet fxCtxEn "en" :=
  c6_normalization_ingress_amended.2.2.2.2 fxCtxEn "EN" (by decide)

end TgifyI18n
